import Mathlib

/-!
Verification of the dependency-editing core of `pyproject-pip`
(`src/pyproject_pip/pypip.py`).

Python strings are embedded as `List Char` (`PyStr`); the Python `str`
methods used by the source (`split`, `strip`, `rstrip`, `lower`,
`endswith`, `startswith`, `index`, `replace`, substring containment,
slicing) are given explicit executable definitions with the same semantics
on the inputs the program manipulates.  Fallible Python code (raising
exceptions) is embedded with `Option`/`Except`.
-/

/-- Python strings, embedded as lists of characters. -/
abbrev PyStr := List Char

/-- Injection of a Lean string literal into the embedding. -/
def pyStr (s : String) : PyStr := s.data

/-- The ASCII whitespace characters stripped by Python's `str.strip()`. -/
def isPySpace (c : Char) : Bool :=
  c = ' ' || c = '\t' || c = '\n' || c = '\x0b' || c = '\x0c' || c = '\r'

/-- Python `str.lstrip()`. -/
def pyLstrip (l : PyStr) : PyStr := l.dropWhile isPySpace

/-- Python `str.rstrip()`. -/
def pyRstrip (l : PyStr) : PyStr := (l.reverse.dropWhile isPySpace).reverse

/-- Python `str.strip()`: remove leading and trailing whitespace. -/
def pyStrip (l : PyStr) : PyStr := pyLstrip (pyRstrip l)

/-- Prepend a character onto the first piece of a `split` result. -/
def consHead (x : Char) : List PyStr → List PyStr
  | [] => [[x]]
  | hd :: t => (x :: hd) :: t

/-- Python `str.split(sep)` for a one-character separator: split on every
occurrence; `"".split(sep) == [""]`. -/
def splitChar (c : Char) : PyStr → List PyStr
  | [] => [[]]
  | x :: xs =>
    if x = c then [] :: splitChar c xs
    else consHead x (splitChar c xs)

/-- Python `str.split(sep)` for a two-character separator: split on every
leftmost non-overlapping occurrence. -/
def splitSeq2 (a b : Char) : PyStr → List PyStr
  | [] => [[]]
  | [x] => [[x]]
  | x :: y :: xs =>
    if x = a ∧ y = b then [] :: splitSeq2 a b xs
    else consHead x (splitSeq2 a b (y :: xs))

/-- The prefix of `l` strictly before the first occurrence of the character
`c` (all of `l` when `c` does not occur): what `l.split(c)[0]` denotes. -/
def upToChar (c : Char) : PyStr → PyStr
  | [] => []
  | x :: xs => if x = c then [] else x :: upToChar c xs

/-- The prefix of `l` strictly before the first occurrence of the
two-character sequence `a b`: what `l.split(ab)[0]` denotes. -/
def upToSeq2 (a b : Char) : PyStr → PyStr
  | [] => []
  | [x] => [x]
  | x :: y :: xs => if x = a ∧ y = b then [] else x :: upToSeq2 a b (y :: xs)

/-- `pypip.base_name`: `package_name.split("[")[0].split("==")[0]`. -/
def base_name (package_name : PyStr) : PyStr :=
  (splitSeq2 '=' '=' ((splitChar '[' package_name).headD [])).headD []

/-- Python `str.lower()` (ASCII case folding, as applied to specifier
strings). -/
def pyLower (l : PyStr) : PyStr := l.map Char.toLower

/-- Lexicographic comparison of Python strings by code point
(Python's `<=` on `str`). -/
def pyStrLe : PyStr → PyStr → Bool
  | [], _ => true
  | _ :: _, [] => false
  | x :: xs, y :: ys => if x = y then pyStrLe xs ys else decide (x < y)

/-- The ascending-order comparison realized by
`dependencies.sort(key=lambda x: x.lower())`. -/
def depLe (x y : PyStr) : Bool := pyStrLe (pyLower x) (pyLower y)

/-- `depLe` as a relation, for use with the stable sort. -/
def depLeP : PyStr → PyStr → Prop := fun x y => depLe x y = true

instance : DecidableRel depLeP := fun x y =>
  inferInstanceAs (Decidable (depLe x y = true))

/-- `pypip.modify_dependencies`: drop every entry whose `base_name` equals
the specifier's, stripping the survivors; on `"install"` append the
stripped specifier; finally sort ascending by the lower-cased full string.
Python's `list.sort(key=lambda x: x.lower())` is a stable ascending sort,
embedded as the (stable) insertion sort on the key comparison `depLeP`. -/
def modify_dependencies (dependencies : List PyStr) (package_version_str : PyStr)
    (action : PyStr) : List PyStr :=
  let deps1 := (dependencies.filter
    (fun dep => !(base_name dep == base_name package_version_str))).map pyStrip
  let deps2 := if action = pyStr "install" then deps1 ++ [pyStrip package_version_str]
    else deps1
  List.insertionSort depLeP deps2

/-- `pypip.is_group`: `"[" in line and "]" in line and '"' not in
line[line.index("["):line.index("]")]` (a TOML table-header detector). -/
def is_group (line : PyStr) : Bool :=
  line.contains '[' && line.contains ']' &&
    !((line.take (line.findIdx (· == ']'))).drop (line.findIdx (· == '['))).contains '"'

/-- The loop body of `pypip.process_dependencies`, walking the
comma-separated fragments.  `last` is `deps[-1]` of the original split.
The mode argument `some dep` represents Python's inner
`while "]" not in dep: dep += "," + deps[i+1]` join in progress with
accumulator `dep`; running off the end of the fragment list there is
Python's `IndexError`, embedded as `none`. -/
def processDepsGo (last : PyStr) (mode : Option PyStr) : List PyStr → Option (List PyStr)
  | [] =>
    match mode with
    | some _ => none
    | none => some []
  | d :: rest =>
    match mode with
    | some dep =>
      let dep2 := dep ++ pyStr "," ++ d
      if dep2.contains ']' then
        (processDepsGo last none rest).map (fun ls => (dep2 ++ pyStr ",") :: ls)
      else processDepsGo last (some dep2) rest
    | none =>
      if d.contains '[' && !d.contains ']' then
        processDepsGo last (some d) rest
      else if d.getLast? == some ']' then
        (processDepsGo last none rest).map
          (fun ls => d.filter (fun c => !(c == ']')) :: pyStr "]" :: ls)
      else
        (processDepsGo last none rest).map (fun ls =>
          let new_dep := if d ≠ last then d ++ pyStr "," else d
          if pyStrip new_dep ≠ [] then new_dep :: ls else ls)

/-- The final loop of `pypip.process_dependencies`: two-space indent every
collected line except ones that (stripped) start with `[`. -/
def formatDepLine (l : PyStr) : PyStr :=
  if (pyStrip l).head? == some '[' then pyStrip l else pyStr "  " ++ pyStrip l

/-- `pypip.process_dependencies(line, output_lines)`, embedded as the list
of lines the call appends to `output_lines` (`none` = `IndexError`).
First the bracket-prefix split (`"[" in line and ("]" not in line or
"," not in line)`), then the comma-fragment walk, then the indent loop. -/
def process_dependencies (line : PyStr) : Option (List PyStr) :=
  let hasPre : Bool := line.contains '[' && (!line.contains ']' || !line.contains ',')
  let pre : List PyStr :=
    if hasPre then [line.take (line.findIdx (· == '[') + 1)] else []
  let rest : PyStr :=
    if hasPre then line.drop (line.findIdx (· == '[') + 1) else line
  let deps := splitChar ',' rest
  (processDepsGo (deps.getLastD []) none deps).map
    (fun ls => (pre ++ ls).map formatDepLine)

/-- Python exceptions raised by the embedded code. -/
inductive PyErr
  | valueError
  | indexError
  | attributeError
  | keyError
  | osError
deriving DecidableEq

deriving instance DecidableEq for Except

/-- Python substring containment: `pat in l`. -/
def containsSeq (pat : PyStr) : PyStr → Bool
  | [] => pat.isPrefixOf []
  | x :: xs => pat.isPrefixOf (x :: xs) || containsSeq pat xs

/-- The condition of `write_pyproject`'s dependency-array opener:
`"dependencies" in line and "optional-dependencies" not in line and
"extra-dependencies" not in line` (the remaining
`not inside_optional_dependencies` conjunct is the branch structure of
`processInputLine`). -/
def opensDependencyArray (line : PyStr) : Bool :=
  containsSeq (pyStr "dependencies") line
    && !containsSeq (pyStr "optional-dependencies") line
    && !containsSeq (pyStr "extra-dependencies") line

/-- The two boolean flags of `write_pyproject`'s line scan:
`inside_dependencies` and `inside_optional_dependencies`. -/
structure WPState where
  inDeps : Bool
  inOpt : Bool
deriving DecidableEq

/-- One iteration of `write_pyproject`'s `for input_line in input_lines`
loop: the updated flags and the lines appended to `output_lines`.
`line.index("[")` on a bracketless opener is Python's `ValueError`;
`process_dependencies` may raise `IndexError`. -/
def processInputLine (st : WPState) (input_line : PyStr) :
    Except PyErr (WPState × List PyStr) :=
  let line := pyRstrip input_line
  if is_group line then
    .ok (⟨false, containsSeq (pyStr "optional-dependencies") line⟩, [line])
  else
    let inDeps1 := if line.contains ']' && st.inDeps && !line.contains '[' then false
      else st.inDeps
    if st.inOpt then
      match process_dependencies line with
      | none => .error .indexError
      | some ls => .ok (⟨inDeps1, st.inOpt⟩, ls)
    else if opensDependencyArray line then
      if line.contains '[' then
        match process_dependencies (line.drop (line.findIdx (· == '[') + 1)) with
        | none => .error .indexError
        | some ls => .ok (⟨true, false⟩, line.take (line.findIdx (· == '[') + 1) :: ls)
      else .error .valueError
    else if inDeps1 then
      match process_dependencies line with
      | none => .error .indexError
      | some ls => .ok (⟨inDeps1, false⟩, ls)
    else .ok (⟨inDeps1, false⟩, [line])

/-- The whole line scan of `write_pyproject`, from the given flag state:
the `output_lines` it accumulates, or the first exception. -/
def formatOutputLines (st : WPState) : List PyStr → Except PyErr (List PyStr)
  | [] => .ok []
  | l :: ls =>
    match processInputLine st l with
    | .error e => .error e
    | .ok (st2, out) =>
      match formatOutputLines st2 ls with
      | .error e => .error e
      | .ok rest => .ok (out ++ rest)

/-- Python `str.splitlines()` for `\n`-separated text (the shape of the
serializer output rewritten by `write_pyproject`): no trailing empty
piece for a trailing newline, and `"".splitlines() == []`. -/
def pySplitLines (l : PyStr) : List PyStr :=
  if l = [] then []
  else if (splitChar '\n' l).getLastD [] = [] then (splitChar '\n' l).dropLast
  else splitChar '\n' l

/-- File-system events performed on the destination file. -/
inductive FsEvent
  | truncate
  | write (s : PyStr)

/-- Apply file events to the file contents: `open(.., "w")` truncates,
`f.write` appends. -/
def runEvents (file : PyStr) : List FsEvent → PyStr
  | [] => file
  | .truncate :: es => runEvents [] es
  | .write s :: es => runEvents (file ++ s) es

/-- The final write loop of `write_pyproject`, as the list of `f.write`
events it performs; `written` is its accumulator list of written chunks
(the blank-line-before-group branch is kept as in the source). -/
def writeEvents (written : List PyStr) : List PyStr → List FsEvent
  | [] => []
  | l :: ls =>
    if is_group l && !written.isEmpty
        && !((written.getLastD []).getLast? == some '\n') then
      .write (pyStr "\n") :: .write (l ++ pyStr "\n")
        :: writeEvents (written ++ [pyStr "\n", l ++ pyStr "\n"]) ls
    else .write (l ++ pyStr "\n") :: writeEvents (written ++ [l ++ pyStr "\n"]) ls

/-- Result of a `write_pyproject` call: the file contents afterwards, and
the exception propagated to the caller, if any. -/
structure WriteOutcome where
  file : PyStr
  err : Option PyErr
deriving DecidableEq

/-- `pypip.write_pyproject`, as a transformer of the on-disk file contents
`file0`.  `dump` is the result of the external `tomlkit.dumps(data)`
(`.error` = it raised); `ioFailAfter = some k` makes the `k`-th file event
of the body raise `OSError`, modelling a write failure.  The body first
truncates (`Path(filename).open("w")`), then formats, then writes; the
`except Exception` handler reopens the file (truncating) and writes back
`original_data`, and propagates nothing. -/
def write_pyproject_run (file0 : PyStr) (dump : Except PyErr PyStr)
    (ioFailAfter : Option Nat) : WriteOutcome :=
  let original_data := file0
  let body : PyStr × Option PyErr :=
    let file1 := runEvents file0 [.truncate]
    match dump with
    | .error e => (file1, some e)
    | .ok toml_str =>
      match formatOutputLines ⟨false, false⟩ (pySplitLines toml_str) with
      | .error e => (file1, some e)
      | .ok output_lines =>
        let evs := writeEvents [] output_lines
        match ioFailAfter with
        | some k =>
          if k < evs.length then (runEvents file1 (evs.take k), some .osError)
          else (runEvents file1 evs, none)
        | none => (runEvents file1 evs, none)
  match body with
  | (content, none) => { file := content, err := none }
  | (cur, some _) =>
    { file := runEvents cur [.truncate, .write original_data], err := none }

/-- A `tool.hatch.envs.<name>` table, restricted to the only key
`modify_pyproject_toml` reads or writes (`"dependencies"`; `none` = key
absent). -/
structure HatchEnv where
  dependencies : Option (List PyStr)
deriving DecidableEq

/-- The `project` table, restricted to the keys `modify_pyproject_toml`
reads or writes: `project.dependencies` and
`project.optional-dependencies` (an insertion-ordered string-keyed
table). -/
structure ProjectTable where
  dependencies : Option (List PyStr)
  optional_dependencies : List (PyStr × List PyStr)
deriving DecidableEq

/-- The parsed `pyproject.toml` document, restricted to the paths
`modify_pyproject_toml` touches.  `has_tool_hatch` embeds
`"tool" in pyproject and "hatch" in pyproject["tool"]`; `envs` is
`tool.hatch.envs` (`none` = the `envs` key is absent). -/
structure Pyproject where
  project : Option ProjectTable
  has_tool_hatch : Bool
  envs : Option (List (PyStr × HatchEnv))
deriving DecidableEq

/-- Python `dict` item assignment on an insertion-ordered table: overwrite
in place, or append a new key. -/
def setKey (k : PyStr) (v : β) : List (PyStr × β) → List (PyStr × β)
  | [] => [(k, v)]
  | (k2, v2) :: rest => if k2 = k then (k, v) :: rest else (k2, v2) :: setKey k v rest

/-- Python truthiness of the `hatch_env` argument (`None` and `""` are
falsy). -/
def pyTruthy : Option PyStr → Bool
  | none => false
  | some s => !s.isEmpty

/-- `package_version_str = f"{package_name}{('==' + package_version) if
package_version else ''}"` from `modify_pyproject_toml`. -/
def packageVersionStr (package_name package_version : PyStr) : PyStr :=
  package_name ++ (if !package_version.isEmpty then pyStr "==" ++ package_version else [])

/-- `pypip.modify_pyproject_toml`, from the parse of the manifest onward
(file lookup, interactive prompting and the final `write_pyproject` call
are outside this model; the result is the mutated document handed to
`write_pyproject`, or the exception propagated to the caller).

Faithful points: the guard raises `ValueError` only when `hatch_env` is
truthy and `tool.hatch` is absent; `optional_base =
pyproject.get("project").get("optional-dependencies", {})` raises
`AttributeError` whenever `project` is absent; a truthy environment name
missing from `envs` yields the empty table
(`envs.get(hatch_env, {})`) and the final
`pyproject["tool"]["hatch"]["envs"][hatch_env] = base_project` writes it
back, creating the environment, while an absent `envs` key makes that
lookup raise (`KeyError`); in the optional branch the named group is
updated before the `"all"` group is read. -/
def modify_pyproject_toml (pyproject : Pyproject) (package_name : PyStr)
    (package_version : PyStr) (action : PyStr) (hatch_env : Option PyStr)
    (dependency_group : PyStr) : Except PyErr Pyproject :=
  let is_optional := dependency_group ≠ pyStr "dependencies"
  let is_hatch_env := pyTruthy hatch_env && pyproject.has_tool_hatch
  if pyTruthy hatch_env && !pyproject.has_tool_hatch then
    .error .valueError
  else
    let package_version_str := packageVersionStr package_name package_version
    match pyproject.project with
    | none => .error .attributeError
    | some proj =>
      if is_optional then
        let dependencies :=
          (List.lookup dependency_group proj.optional_dependencies).getD []
        let ob1 := setKey dependency_group
          (modify_dependencies dependencies package_version_str action)
          proj.optional_dependencies
        let all_group := (List.lookup (pyStr "all") ob1).getD []
        let ob2 := setKey (pyStr "all")
          (modify_dependencies all_group package_version_str action) ob1
        let proj2 := { proj with optional_dependencies := ob2 }
        if is_hatch_env then
          match pyproject.envs with
          | none => .error .keyError
          | some envs =>
            let e := hatch_env.getD []
            let base_project := (List.lookup e envs).getD { dependencies := none }
            .ok { pyproject with project := some proj2, envs := some (setKey e base_project envs) }
        else .ok { pyproject with project := some proj2 }
      else
        if is_hatch_env then
          match pyproject.envs with
          | none => .error .keyError
          | some envs =>
            let e := hatch_env.getD []
            let base_project := (List.lookup e envs).getD { dependencies := none }
            let base2 := { base_project with dependencies := some (modify_dependencies
              (base_project.dependencies.getD []) package_version_str action) }
            .ok { pyproject with envs := some (setKey e base2 envs) }
        else
          let proj2 := { proj with dependencies := some (modify_dependencies
            (proj.dependencies.getD []) package_version_str action) }
          .ok { pyproject with project := some proj2 }

theorem consHead_ne_nil (x : Char) (l : List PyStr) : consHead x l ≠ [] := by
  cases l <;> simp [consHead]

theorem headD_consHead (x : Char) (l : List PyStr) :
    (consHead x l).headD [] = x :: l.headD [] := by
  cases l <;> simp [consHead]

/-- Python `split` always yields at least one piece. -/
theorem splitChar_ne_nil (c : Char) (l : PyStr) : splitChar c l ≠ [] := by
  induction l with
  | nil => simp [splitChar]
  | cons x xs ih =>
    rw [splitChar]
    split
    · simp
    · exact consHead_ne_nil x _

/-- The head of Python's one-character `split` is the prefix before the
first occurrence. -/
theorem headD_splitChar (c : Char) (l : PyStr) :
    (splitChar c l).headD [] = upToChar c l := by
  induction l with
  | nil => simp [splitChar, upToChar]
  | cons x xs ih =>
    rw [splitChar, upToChar]
    split
    · simp
    · rw [headD_consHead, ih]

/-- The head of Python's two-character `split` is the prefix before the
first occurrence. -/
theorem headD_splitSeq2 (a b : Char) (l : PyStr) :
    (splitSeq2 a b l).headD [] = upToSeq2 a b l := by
  induction l using splitSeq2.induct a b with
  | case1 => simp [splitSeq2, upToSeq2]
  | case2 x => simp [splitSeq2, upToSeq2]
  | case3 x y xs h ih =>
    rw [splitSeq2, upToSeq2]
    simp [h]
  | case4 x y xs h ih =>
    rw [splitSeq2, upToSeq2]
    rw [if_neg h, if_neg h, headD_consHead, ih]

theorem pyStrLe_total : ∀ a b : PyStr, pyStrLe a b = true ∨ pyStrLe b a = true := by
  intro a
  induction a with
  | nil => intro b; left; rfl
  | cons x xs ih =>
    intro b
    cases b with
    | nil => right; rfl
    | cons y ys =>
      by_cases hxy : x = y
      · subst hxy
        rcases ih ys with h | h
        · left; simpa [pyStrLe] using h
        · right; simpa [pyStrLe] using h
      · rcases lt_trichotomy x y with hlt | heq | hgt
        · left; simp [pyStrLe, hxy, hlt]
        · exact absurd heq hxy
        · right; simp [pyStrLe, Ne.symm hxy, hgt]

theorem pyStrLe_trans :
    ∀ a b c : PyStr, pyStrLe a b = true → pyStrLe b c = true → pyStrLe a c = true
  | [], _, _, _, _ => rfl
  | _ :: _, [], _, h1, _ => by simp [pyStrLe] at h1
  | _ :: _, _ :: _, [], _, h2 => by simp [pyStrLe] at h2
  | x :: xs, y :: ys, z :: zs, h1, h2 => by
    simp only [pyStrLe] at h1 h2 ⊢
    by_cases hxy : x = y
    · subst hxy
      by_cases hyz : x = z
      · subst hyz
        simp only [if_pos rfl] at h1 h2 ⊢
        exact pyStrLe_trans xs ys zs h1 h2
      · simp only [if_pos rfl] at h1
        simp only [if_neg hyz] at h2 ⊢
        exact h2
    · simp only [if_neg hxy, decide_eq_true_eq] at h1
      by_cases hyz : y = z
      · subst hyz
        simp only [if_neg hxy, decide_eq_true_eq]
        exact h1
      · simp only [if_neg hyz, decide_eq_true_eq] at h2
        have hxz : x < z := lt_trans h1 h2
        simp [ne_of_lt hxz, hxz]

instance : IsTotal PyStr depLeP :=
  ⟨fun a b => pyStrLe_total (pyLower a) (pyLower b)⟩

instance : IsTrans PyStr depLeP :=
  ⟨fun a b c => pyStrLe_trans (pyLower a) (pyLower b) (pyLower c)⟩

example : process_dependencies (pyStr "dep1, dep2, dep3]")
    = some [pyStr "  dep1,", pyStr "  dep2,", pyStr "  dep3", pyStr "  ]"] := by decide

/-- The head of a stripped string is never whitespace. -/
theorem pyStrip_head (l : PyStr) (c : Char) (h : (pyStrip l).head? = some c) :
    isPySpace c = false := by
  have := List.head?_dropWhile_not isPySpace (pyRstrip l)
  rw [show (pyRstrip l).dropWhile isPySpace = pyStrip l from rfl] at this
  rw [h] at this
  exact this

/-- If a list has no whitespace head, `lstrip` leaves it unchanged. -/
theorem pyLstrip_of_head (l : PyStr)
    (h : ∀ c, l.head? = some c → isPySpace c = false) : pyLstrip l = l := by
  cases l with
  | nil => rfl
  | cons x xs =>
    have hx : isPySpace x = false := h x rfl
    simp [pyLstrip, List.dropWhile_cons, hx]

/-- If a list has no whitespace last element, `rstrip` leaves it
unchanged. -/
theorem pyRstrip_of_getLast (l : PyStr)
    (h : ∀ c, l.getLast? = some c → isPySpace c = false) : pyRstrip l = l := by
  have hrev : ∀ c, l.reverse.head? = some c → isPySpace c = false := by
    intro c hc
    rw [List.head?_reverse] at hc
    exact h c hc
  have : pyLstrip l.reverse = l.reverse := pyLstrip_of_head _ hrev
  rw [pyRstrip, show l.reverse.dropWhile isPySpace = pyLstrip l.reverse from rfl,
    this, List.reverse_reverse]

/-- A nonempty suffix has the same last element as the whole list. -/
theorem getLast?_of_suffix {l t : PyStr} (h : t <:+ l) (ht : t ≠ []) :
    t.getLast? = l.getLast? := by
  obtain ⟨u, rfl⟩ := h
  rw [List.getLast?_append]
  cases hc : t.getLast? with
  | none => exact absurd (List.getLast?_eq_none_iff.mp hc) ht
  | some c => rfl

/-- The last element of a stripped string is never whitespace. -/
theorem pyStrip_getLast (l : PyStr) (c : Char) (h : (pyStrip l).getLast? = some c) :
    isPySpace c = false := by
  have hsuf : pyStrip l <:+ pyRstrip l := List.dropWhile_suffix isPySpace
  have hne : pyStrip l ≠ [] := by
    intro hnil
    rw [hnil] at h
    simp at h
  rw [getLast?_of_suffix hsuf hne] at h
  rw [pyRstrip, List.getLast?_reverse] at h
  have := List.head?_dropWhile_not isPySpace l.reverse
  rw [h] at this
  exact this

/-- Python `strip` is idempotent. -/
theorem pyStrip_idem (l : PyStr) : pyStrip (pyStrip l) = pyStrip l := by
  have h1 : pyRstrip (pyStrip l) = pyStrip l :=
    pyRstrip_of_getLast _ (pyStrip_getLast l)
  have h2 : pyLstrip (pyStrip l) = pyStrip l :=
    pyLstrip_of_head _ (pyStrip_head l)
  rw [pyStrip, h1, h2]

/-- Mapping a function that fixes every member is the identity. -/
theorem map_eq_self_of_mem {l : List PyStr} {f : PyStr → PyStr}
    (h : ∀ x ∈ l, f x = x) : l.map f = l := by
  induction l with
  | nil => rfl
  | cons x xs ih =>
    rw [List.map_cons, h x (by simp), ih (fun y hy => h y (by simp [hy]))]

/-- Every entry of a `modify_dependencies` result is whitespace-stripped:
each one is a `pyStrip`-image, and `pyStrip` is idempotent. -/
theorem modify_dependencies_mem_stripped (dependencies : List PyStr)
    (package_version_str action : PyStr) :
    ∀ e ∈ modify_dependencies dependencies package_version_str action,
      pyStrip e = e := by
  intro e he
  unfold modify_dependencies at he
  rw [(List.perm_insertionSort depLeP _).mem_iff] at he
  split at he
  · rw [List.mem_append] at he
    rcases he with he | he
    · rw [List.mem_map] at he
      obtain ⟨d, _, rfl⟩ := he
      exact pyStrip_idem d
    · rw [List.eq_of_mem_singleton he]
      exact pyStrip_idem _
  · rw [List.mem_map] at he
    obtain ⟨d, _, rfl⟩ := he
    exact pyStrip_idem d

/-- Members of the filtered-and-stripped survivor list: when the input is
already stripped they are input entries whose base name differs from the
specifier's. -/
theorem mem_modify_survivors {C : List PyStr} {s d : PyStr}
    (hC : ∀ x ∈ C, pyStrip x = x)
    (hd : d ∈ (C.filter (fun dep => !(base_name dep == base_name s))).map pyStrip) :
    d ∈ C ∧ base_name d ≠ base_name s := by
  rw [List.mem_map] at hd
  obtain ⟨d0, hd0, rfl⟩ := hd
  rw [List.mem_filter] at hd0
  obtain ⟨hmem, hbn⟩ := hd0
  rw [hC d0 hmem]
  refine ⟨hmem, ?_⟩
  simpa using hbn

/-- `modify_dependencies` output is sorted ascending by the lower-cased full
string. -/
theorem modify_dependencies_sorted (dependencies : List PyStr)
    (package_version_str action : PyStr) :
    List.Sorted depLeP (modify_dependencies dependencies package_version_str action) :=
  List.sorted_insertionSort depLeP _

/-- On stripped inputs, the only entry of the result sharing the specifier's
base name is the specifier itself, present only for `"install"`. -/
theorem modify_dependencies_base_names (C : List PyStr) (s action : PyStr)
    (hC : ∀ d ∈ C, pyStrip d = d) (hs : pyStrip s = s) :
    ∀ d ∈ modify_dependencies C s action,
      base_name d = base_name s → action = pyStr "install" ∧ d = s := by
  intro d hd hbn
  unfold modify_dependencies at hd
  rw [(List.perm_insertionSort depLeP _).mem_iff] at hd
  split at hd
  · rw [List.mem_append] at hd
    rcases hd with hd | hd
    · exact absurd hbn (mem_modify_survivors hC hd).2
    · rw [List.eq_of_mem_singleton hd, hs]
      constructor
      · assumption
      · rfl
  · exact absurd hbn (mem_modify_survivors hC hd).2

/-- Unfolding equation: the `"install"` action. -/
theorem modify_dependencies_install_eq (deps : List PyStr) (s : PyStr) :
    modify_dependencies deps s (pyStr "install") =
      List.insertionSort depLeP
        ((deps.filter (fun dep => !(base_name dep == base_name s))).map pyStrip
          ++ [pyStrip s]) := by
  simp [modify_dependencies]

/-- Unfolding equation: the `"uninstall"` action appends nothing. -/
theorem modify_dependencies_uninstall_eq (deps : List PyStr) (s : PyStr) :
    modify_dependencies deps s (pyStr "uninstall") =
      List.insertionSort depLeP
        ((deps.filter (fun dep => !(base_name dep == base_name s))).map pyStrip) := by
  simp only [modify_dependencies]
  rw [if_neg (by decide)]

/-- On stripped inputs, `"install"` puts the specifier in the result exactly
once: the sublist of entries equal to it is the singleton. -/
theorem modify_dependencies_specifier_once (C : List PyStr) (s : PyStr)
    (hC : ∀ d ∈ C, pyStrip d = d) (hs : pyStrip s = s) :
    (modify_dependencies C s (pyStr "install")).filter (fun d => d == s) = [s] := by
  have hperm : modify_dependencies C s (pyStr "install")
      |>.Perm ((C.filter (fun dep => !(base_name dep == base_name s))).map pyStrip
        ++ [s]) := by
    rw [modify_dependencies_install_eq, hs]
    exact List.perm_insertionSort depLeP _
  have hfil := hperm.filter (fun d => d == s)
  rw [List.filter_append] at hfil
  have hnil : ((C.filter (fun dep => !(base_name dep == base_name s))).map
      pyStrip).filter (fun d => d == s) = [] := by
    rw [List.filter_eq_nil_iff]
    intro a ha hemem
    have : a = s := by simpa using hemem
    exact (mem_modify_survivors hC ha).2 (this ▸ rfl)
  rw [hnil] at hfil
  simp only [List.nil_append, List.filter_cons, beq_self_eq_true, if_true,
    List.filter_nil] at hfil
  exact List.perm_singleton.mp hfil

/-- Uninstall-after-install removes precisely the entries whose base name
matches, and on stripped inputs there is exactly one such entry: the
specifier. -/
theorem modify_install_then_uninstall (C : List PyStr) (s : PyStr)
    (hC : ∀ d ∈ C, pyStrip d = d) (hs : pyStrip s = s) :
    modify_dependencies (modify_dependencies C s (pyStr "install")) s (pyStr "uninstall")
      = (modify_dependencies C s (pyStr "install")).filter
          (fun d => !(base_name d == base_name s))
    ∧ (modify_dependencies C s (pyStr "install")).filter
          (fun d => base_name d == base_name s) = [s] := by
  have hstrip := modify_dependencies_mem_stripped C s (pyStr "install")
  have hsorted := modify_dependencies_sorted C s (pyStr "install")
  constructor
  · rw [modify_dependencies_uninstall_eq]
    rw [map_eq_self_of_mem (fun x hx => hstrip x (List.mem_filter.mp hx).1)]
    exact List.Sorted.insertionSort_eq (hsorted.filter _)
  · have hperm : modify_dependencies C s (pyStr "install")
        |>.Perm ((C.filter (fun dep => !(base_name dep == base_name s))).map pyStrip
          ++ [s]) := by
      rw [modify_dependencies_install_eq, hs]
      exact List.perm_insertionSort depLeP _
    have hfil := hperm.filter (fun d => base_name d == base_name s)
    rw [List.filter_append] at hfil
    have hnil : ((C.filter (fun dep => !(base_name dep == base_name s))).map
        pyStrip).filter (fun d => base_name d == base_name s) = [] := by
      rw [List.filter_eq_nil_iff]
      intro a ha
      simpa using (mem_modify_survivors hC ha).2
    rw [hnil] at hfil
    simp only [List.nil_append, List.filter_cons, beq_self_eq_true, if_true,
      List.filter_nil] at hfil
    exact List.perm_singleton.mp hfil

/-- `"install"` always leaves the stripped specifier in the result. -/
theorem mem_modify_install (deps : List PyStr) (s : PyStr) :
    pyStrip s ∈ modify_dependencies deps s (pyStr "install") := by
  rw [modify_dependencies_install_eq]
  rw [(List.perm_insertionSort depLeP _).mem_iff]
  simp

/-- Looking up the key just assigned returns the assigned value. -/
theorem lookup_setKey_self {β : Type} (k : PyStr) (v : β) (l : List (PyStr × β)) :
    List.lookup k (setKey k v l) = some v := by
  induction l with
  | nil => simp [setKey, List.lookup]
  | cons p rest ih =>
    obtain ⟨k2, v2⟩ := p
    by_cases h : k2 = k
    · subst h
      simp [setKey, List.lookup]
    · have hb : (k == k2) = false := beq_eq_false_iff_ne.mpr (fun hkk => h hkk.symm)
      simp [setKey, List.lookup, h, hb, ih]

/-- Assigning one key does not change the lookup of another. -/
theorem lookup_setKey_ne {β : Type} {k1 k2 : PyStr} (h : k1 ≠ k2) (v : β)
    (l : List (PyStr × β)) :
    List.lookup k1 (setKey k2 v l) = List.lookup k1 l := by
  induction l with
  | nil =>
    have hb : (k1 == k2) = false := beq_eq_false_iff_ne.mpr h
    simp [setKey, List.lookup, hb]
  | cons p rest ih =>
    obtain ⟨k3, v3⟩ := p
    by_cases hk : k3 = k2
    · subst hk
      have hb : (k1 == k3) = false := beq_eq_false_iff_ne.mpr h
      simp [setKey, List.lookup, hb]
    · cases hb : (k1 == k3) <;> simp [setKey, List.lookup, hk, hb, ih]

/-- When no entry of a stripped, sorted collection shares the specifier's
base name, `"uninstall"` is the identity. -/
theorem modify_uninstall_noop (C : List PyStr) (s : PyStr)
    (hC : ∀ d ∈ C, pyStrip d = d) (hsorted : List.Sorted depLeP C)
    (hno : ∀ d ∈ C, base_name d ≠ base_name s) :
    modify_dependencies C s (pyStr "uninstall") = C := by
  rw [modify_dependencies_uninstall_eq]
  rw [List.filter_eq_self.mpr (fun a ha => by simpa using hno a ha)]
  rw [map_eq_self_of_mem hC]
  exact List.Sorted.insertionSort_eq hsorted

/-!
## Claim theorems
-/

/-- C1 (confirmed): on the input line
`"dep1[extra1,extra2], dep2[extra3], dep3"` the per-item reflow routine
`process_dependencies` appends exactly the four lines
`"  dep1[extra1,extra2],"`, `"  dep2[extra3"`, `"  ]"`, `"  dep3"` in
that order: an extras bracket spanning comma-delimited fragments is
re-joined onto one line, and a trailing extras bracket is split across
two lines. -/
theorem C1_reflow_exact :
    process_dependencies (pyStr "dep1[extra1,extra2], dep2[extra3], dep3")
      = some [pyStr "  dep1[extra1,extra2],", pyStr "  dep2[extra3",
          pyStr "  ]", pyStr "  dep3"] := by decide

/-- C2 is false as stated: `modify_dependencies` tests `base_name` on the
unstripped entry but keeps the stripped entry, so the whitespace-padded
entry `" pkg"` survives installing `"pkg"` and the result contains the
specifier twice, not exactly once. -/
theorem C2_counterexample :
    modify_dependencies [pyStr " pkg"] (pyStr "pkg") (pyStr "install")
      = [pyStr "pkg", pyStr "pkg"]
    ∧ (modify_dependencies [pyStr " pkg"] (pyStr "pkg") (pyStr "install")).filter
        (fun d => d == pyStr "pkg") ≠ [pyStr "pkg"] := by decide

/-- C2 (corrected): when every input entry and the specifier are already
whitespace-stripped, no entry of the result shares the specifier's base
name except — for `"install"` — the specifier itself, which occurs exactly
once; and the result is sorted case-insensitively ascending by full
string.  (Purity is inherent in the functional embedding.) -/
theorem C2_install_spec (C : List PyStr) (s action : PyStr)
    (hC : ∀ d ∈ C, pyStrip d = d) (hs : pyStrip s = s) :
    (∀ d ∈ modify_dependencies C s action,
        base_name d = base_name s → action = pyStr "install" ∧ d = s)
    ∧ (action = pyStr "install" →
        (modify_dependencies C s action).filter (fun d => d == s) = [s])
    ∧ List.Sorted depLeP (modify_dependencies C s action) :=
  ⟨modify_dependencies_base_names C s action hC hs,
   fun ha => by rw [ha]; exact modify_dependencies_specifier_once C s hC hs,
   modify_dependencies_sorted C s action⟩

theorem C2_witness :
    (∀ d ∈ [pyStr "beta"], pyStrip d = d) ∧ pyStrip (pyStr "Alpha") = pyStr "Alpha"
    ∧ ((∀ d ∈ modify_dependencies [pyStr "beta"] (pyStr "Alpha") (pyStr "install"),
          base_name d = base_name (pyStr "Alpha") →
            pyStr "install" = pyStr "install" ∧ d = pyStr "Alpha")
      ∧ (pyStr "install" = pyStr "install" →
          (modify_dependencies [pyStr "beta"] (pyStr "Alpha")
            (pyStr "install")).filter (fun d => d == pyStr "Alpha")
            = [pyStr "Alpha"])
      ∧ List.Sorted depLeP
          (modify_dependencies [pyStr "beta"] (pyStr "Alpha") (pyStr "install"))) :=
  ⟨by decide, by decide,
   C2_install_spec [pyStr "beta"] (pyStr "Alpha") (pyStr "install")
     (by decide) (by decide)⟩

/-- C5 is false as stated: on `C = [" pkg"]` (base names unique) with
specifier `"pkg"`, install produces `["pkg", "pkg"]`, and the subsequent
uninstall removes both copies — not exactly the one entry — leaving `[]`
rather than `["pkg"]`. -/
theorem C5_counterexample :
    modify_dependencies [pyStr " pkg"] (pyStr "pkg") (pyStr "install")
      = [pyStr "pkg", pyStr "pkg"]
    ∧ modify_dependencies
        (modify_dependencies [pyStr " pkg"] (pyStr "pkg") (pyStr "install"))
        (pyStr "pkg") (pyStr "uninstall") = []
    ∧ [pyStr "pkg", pyStr "pkg"].erase (pyStr "pkg") = [pyStr "pkg"]
    ∧ ([] : List PyStr) ≠ [pyStr "pkg"] := by decide

/-- C5 (corrected): when every entry of `C` and the specifier are already
whitespace-stripped, uninstall-after-install removes precisely the entries
whose base name matches the specifier's — leaving every other entry
byte-identical and in the same sorted order — and there is exactly one
such entry: the specifier itself. -/
theorem C5_uninstall_after_install (C : List PyStr) (s : PyStr)
    (hC : ∀ d ∈ C, pyStrip d = d) (hs : pyStrip s = s) :
    modify_dependencies (modify_dependencies C s (pyStr "install")) s
        (pyStr "uninstall")
      = (modify_dependencies C s (pyStr "install")).filter
          (fun d => !(base_name d == base_name s))
    ∧ (modify_dependencies C s (pyStr "install")).filter
          (fun d => base_name d == base_name s) = [s] :=
  modify_install_then_uninstall C s hC hs

theorem C5_witness :
    (∀ d ∈ [pyStr "alpha==1.0"], pyStrip d = d)
    ∧ pyStrip (pyStr "beta") = pyStr "beta"
    ∧ (modify_dependencies
          (modify_dependencies [pyStr "alpha==1.0"] (pyStr "beta")
            (pyStr "install")) (pyStr "beta") (pyStr "uninstall")
        = (modify_dependencies [pyStr "alpha==1.0"] (pyStr "beta")
            (pyStr "install")).filter
            (fun d => !(base_name d == base_name (pyStr "beta")))
      ∧ (modify_dependencies [pyStr "alpha==1.0"] (pyStr "beta")
            (pyStr "install")).filter
            (fun d => base_name d == base_name (pyStr "beta")) = [pyStr "beta"]) :=
  ⟨by decide, by decide,
   C5_uninstall_after_install [pyStr "alpha==1.0"] (pyStr "beta")
     (by decide) (by decide)⟩

/-- C6 is false as stated: `modify_dependencies` unconditionally re-sorts,
so an uninstall that matches nothing still reorders an unsorted input
(`["b", "a"]` becomes `["a", "b"]`), violating "returns C unchanged in
both contents and order". -/
theorem C6_counterexample :
    modify_dependencies [pyStr "b", pyStr "a"] (pyStr "c") (pyStr "uninstall")
      = [pyStr "a", pyStr "b"]
    ∧ [pyStr "a", pyStr "b"] ≠ [pyStr "b", pyStr "a"]
    ∧ (∀ d ∈ [pyStr "b", pyStr "a"], base_name d ≠ base_name (pyStr "c")) := by
  decide

/-- C6 (corrected): on a collection that is already whitespace-stripped and
sorted case-insensitively ascending — the invariant the editor itself
establishes — an uninstall whose base name matches no entry returns the
collection unchanged in contents and order, raising no error. -/
theorem C6_uninstall_noop (C : List PyStr) (s : PyStr)
    (hC : ∀ d ∈ C, pyStrip d = d) (hsorted : List.Sorted depLeP C)
    (hno : ∀ d ∈ C, base_name d ≠ base_name s) :
    modify_dependencies C s (pyStr "uninstall") = C :=
  modify_uninstall_noop C s hC hsorted hno

theorem C6_witness :
    (∀ d ∈ [pyStr "a", pyStr "b"], pyStrip d = d)
    ∧ List.Sorted depLeP [pyStr "a", pyStr "b"]
    ∧ (∀ d ∈ [pyStr "a", pyStr "b"], base_name d ≠ base_name (pyStr "c"))
    ∧ modify_dependencies [pyStr "a", pyStr "b"] (pyStr "c") (pyStr "uninstall")
        = [pyStr "a", pyStr "b"] :=
  ⟨by decide, by decide, by decide,
   C6_uninstall_noop [pyStr "a", pyStr "b"] (pyStr "c")
     (by decide) (by decide) (by decide)⟩

/-- C7 (confirmed): `base_name` takes the piece before the first `[`, then
the piece of that before the first `==`; in particular
`base_name "pkg[extra]==1.0" = "pkg"`, `base_name "pkg==1.0" = "pkg"`,
`base_name "pkg" = "pkg"`. -/
theorem C7_base_name :
    (∀ s : PyStr, base_name s = upToSeq2 '=' '=' (upToChar '[' s))
    ∧ base_name (pyStr "pkg[extra]==1.0") = pyStr "pkg"
    ∧ base_name (pyStr "pkg==1.0") = pyStr "pkg"
    ∧ base_name (pyStr "pkg") = pyStr "pkg" := by
  refine ⟨fun s => ?_, by decide, by decide, by decide⟩
  rw [base_name, headD_splitSeq2, headD_splitChar]

/-- C10 (confirmed): every entry of every `modify_dependencies` result is
whitespace-stripped — retained pre-existing entries as well as the newly
appended specifier. -/
theorem C10_entries_stripped (dependencies : List PyStr)
    (package_version_str action : PyStr) :
    ∀ e ∈ modify_dependencies dependencies package_version_str action,
      pyStrip e = e :=
  modify_dependencies_mem_stripped dependencies package_version_str action

theorem C10_witness :
    pyStr "a" ∈ modify_dependencies [pyStr " a "] (pyStr "b") (pyStr "uninstall")
    ∧ pyStrip (pyStr "a") = pyStr "a" :=
  ⟨by decide,
   C10_entries_stripped [pyStr " a "] (pyStr "b") (pyStr "uninstall")
     (pyStr "a") (by decide)⟩

/-- C8 is false as stated: `write_pyproject` rstrips every input line
(`line = input_line.rstrip()`) before emitting it, so a non-dependency
line with trailing whitespace is not passed through byte-for-byte. -/
theorem C8_counterexample :
    processInputLine ⟨false, false⟩ (pyStr "x = 1 ")
      = .ok (⟨false, false⟩, [pyStr "x = 1"])
    ∧ pyStr "x = 1" ≠ pyStr "x = 1 "
    ∧ opensDependencyArray (pyRstrip (pyStr "x = 1 ")) = false := by decide

/-- C8 (corrected): a line processed with both state-machine flags false
that does not open a dependency array is emitted as exactly one output
line, namely `input_line.rstrip()` — hence byte-for-byte unchanged
precisely when it has no trailing whitespace. -/
theorem C8_passthrough (input_line : PyStr)
    (h : opensDependencyArray (pyRstrip input_line) = false) :
    ∃ st2, processInputLine ⟨false, false⟩ input_line
        = .ok (st2, [pyRstrip input_line])
      ∧ (pyRstrip input_line = input_line →
          processInputLine ⟨false, false⟩ input_line = .ok (st2, [input_line])) := by
  suffices hs : ∃ st2, processInputLine ⟨false, false⟩ input_line
      = .ok (st2, [pyRstrip input_line]) by
    obtain ⟨st2, h2⟩ := hs
    refine ⟨st2, h2, fun he => ?_⟩
    rw [he] at h2
    exact h2
  by_cases hg : is_group (pyRstrip input_line) = true
  · exact ⟨⟨false, containsSeq (pyStr "optional-dependencies") (pyRstrip input_line)⟩,
      by simp only [processInputLine, if_pos hg]⟩
  · refine ⟨⟨false, false⟩, ?_⟩
    simp only [processInputLine, if_neg hg, h]
    simp

theorem C8_witness :
    opensDependencyArray (pyRstrip (pyStr "name = \"demo\"")) = false
    ∧ ∃ st2, processInputLine ⟨false, false⟩ (pyStr "name = \"demo\"")
        = .ok (st2, [pyRstrip (pyStr "name = \"demo\"")])
      ∧ (pyRstrip (pyStr "name = \"demo\"") = pyStr "name = \"demo\"" →
          processInputLine ⟨false, false⟩ (pyStr "name = \"demo\"")
            = .ok (st2, [pyStr "name = \"demo\""])) :=
  ⟨by decide, C8_passthrough (pyStr "name = \"demo\"") (by decide)⟩

/-- Truncating and writing back the captured contents restores them
regardless of the file's intermediate state. -/
theorem runEvents_restore (x s : PyStr) :
    runEvents x [FsEvent.truncate, FsEvent.write s] = s := by
  simp [runEvents]

/-- C3 (confirmed): if any exception is raised inside `write_pyproject`'s
`try` block — the external `tomlkit.dumps`, the line-scan formatting, or a
file write — the file contents after the call equal the contents captured
before it, and no error is propagated to the caller. -/
theorem C3_rollback (file0 : PyStr) (dump : Except PyErr PyStr)
    (ioFailAfter : Option Nat)
    (h : (∃ e, dump = .error e)
      ∨ (∃ t e, dump = .ok t
          ∧ formatOutputLines ⟨false, false⟩ (pySplitLines t) = .error e)
      ∨ (∃ t lines k, dump = .ok t
          ∧ formatOutputLines ⟨false, false⟩ (pySplitLines t) = .ok lines
          ∧ ioFailAfter = some k ∧ k < (writeEvents [] lines).length)) :
    write_pyproject_run file0 dump ioFailAfter
      = { file := file0, err := none } := by
  rcases h with ⟨e, rfl⟩ | ⟨t, e, rfl, hfmt⟩ | ⟨t, lines, k, rfl, hfmt, rfl, hk⟩
  · simp [write_pyproject_run, runEvents_restore]
  · simp [write_pyproject_run, hfmt, runEvents_restore]
  · simp [write_pyproject_run, hfmt, hk, runEvents_restore]

theorem C3_witness :
    (∃ e, (Except.error PyErr.valueError : Except PyErr PyStr) = .error e)
    ∧ write_pyproject_run (pyStr "x = 1\n") (.error .valueError) none
        = { file := pyStr "x = 1\n", err := none } :=
  ⟨⟨PyErr.valueError, rfl⟩,
   C3_rollback (pyStr "x = 1\n") (.error .valueError) none
     (Or.inl ⟨PyErr.valueError, rfl⟩)⟩

/-- C4 is false as stated: with `tool.hatch` present but the requested
environment name absent from `tool.hatch.envs`, `modify_pyproject_toml`
raises nothing — it silently creates the environment and writes a
dependency list for it. -/
theorem C4_counterexample :
    modify_pyproject_toml
        { project := some { dependencies := some [], optional_dependencies := [] },
          has_tool_hatch := true, envs := some [] }
        (pyStr "foo") [] (pyStr "install") (some (pyStr "dev")) (pyStr "dependencies")
      = .ok ({ project := some { dependencies := some [], optional_dependencies := [] },
               has_tool_hatch := true,
               envs := some [(pyStr "dev", { dependencies := some [pyStr "foo"] })] }
            : Pyproject)
    ∧ List.lookup (pyStr "dev") ([] : List (PyStr × HatchEnv)) = none := by decide

/-- C4 (corrected): for a (truthy) requested environment name,
`modify_pyproject_toml` raises its hard `ValueError` exactly when the
manifest has no `tool.hatch` table; when `tool.hatch` is present the
function never raises that error — in particular an environment name
absent from `tool.hatch.envs` is processed silently. -/
theorem C4_env_guard (py : Pyproject) (pn pv a e g : PyStr) (he : e ≠ []) :
    modify_pyproject_toml py pn pv a (some e) g = .error .valueError
      ↔ py.has_tool_hatch = false := by
  have htr : pyTruthy (some e) = true := by
    cases e with
    | nil => exact absurd rfl he
    | cons c cs => rfl
  constructor
  · intro hres
    by_contra hh
    rw [Bool.not_eq_false] at hh
    simp [modify_pyproject_toml, htr, hh] at hres
    split at hres
    · simp at hres
    · split at hres <;> split at hres <;> simp at hres
  · intro hh
    simp [modify_pyproject_toml, htr, hh]

theorem C4_witness :
    pyStr "dev" ≠ []
    ∧ (modify_pyproject_toml
          { project := some { dependencies := some [], optional_dependencies := [] },
            has_tool_hatch := false, envs := none }
          (pyStr "foo") [] (pyStr "install") (some (pyStr "dev"))
          (pyStr "dependencies")
        = .error .valueError
      ↔ ({ project := some { dependencies := some [], optional_dependencies := [] },
            has_tool_hatch := false, envs := none } : Pyproject).has_tool_hatch
          = false) :=
  ⟨by decide,
   C4_env_guard
     { project := some { dependencies := some [], optional_dependencies := [] },
       has_tool_hatch := false, envs := none }
     (pyStr "foo") [] (pyStr "install") (pyStr "dev") (pyStr "dependencies")
     (by decide)⟩

/-- C9 (confirmed): for any dependency group other than `"dependencies"`
(here also distinct from the aggregate group itself), a successful
`modify_pyproject_toml` applies the same `modify_dependencies` edit with
the same specifier and action to both the named optional group and the
aggregate `"all"` group; under `"install"` the stripped specifier is a
member of both afterwards. -/
theorem C9_optional_both_groups (py : Pyproject) (pn pv a : PyStr)
    (henv : Option PyStr) (g : PyStr) (proj : ProjectTable) (py2 : Pyproject)
    (hg : g ≠ pyStr "dependencies") (hga : g ≠ pyStr "all")
    (hp : py.project = some proj)
    (hok : modify_pyproject_toml py pn pv a henv g = .ok py2) :
    ∃ proj2, py2.project = some proj2
      ∧ List.lookup g proj2.optional_dependencies
          = some (modify_dependencies
              ((List.lookup g proj.optional_dependencies).getD [])
              (packageVersionStr pn pv) a)
      ∧ List.lookup (pyStr "all") proj2.optional_dependencies
          = some (modify_dependencies
              ((List.lookup (pyStr "all") proj.optional_dependencies).getD [])
              (packageVersionStr pn pv) a)
      ∧ (a = pyStr "install" →
          pyStrip (packageVersionStr pn pv)
              ∈ (List.lookup g proj2.optional_dependencies).getD []
          ∧ pyStrip (packageVersionStr pn pv)
              ∈ (List.lookup (pyStr "all") proj2.optional_dependencies).getD []) := by
  simp only [modify_pyproject_toml, hp] at hok
  split at hok
  · exact Except.noConfusion hok
  · split at hok
    · split at hok
      · exact Except.noConfusion hok
      · obtain rfl := Except.ok.inj hok
        refine ⟨_, rfl, ?_, ?_, ?_⟩
        · rw [lookup_setKey_ne hga, lookup_setKey_self]
        · rw [lookup_setKey_self, lookup_setKey_ne (Ne.symm hga)]
        · intro ha
          subst ha
          constructor
          · rw [lookup_setKey_ne hga, lookup_setKey_self]
            exact mem_modify_install _ _
          · rw [lookup_setKey_self, lookup_setKey_ne (Ne.symm hga)]
            exact mem_modify_install _ _
    · obtain rfl := Except.ok.inj hok
      refine ⟨_, rfl, ?_, ?_, ?_⟩
      · rw [lookup_setKey_ne hga, lookup_setKey_self]
      · rw [lookup_setKey_self, lookup_setKey_ne (Ne.symm hga)]
      · intro ha
        subst ha
        constructor
        · rw [lookup_setKey_ne hga, lookup_setKey_self]
          exact mem_modify_install _ _
        · rw [lookup_setKey_self, lookup_setKey_ne (Ne.symm hga)]
          exact mem_modify_install _ _

theorem C9_witness :
    pyStr "docs" ≠ pyStr "dependencies" ∧ pyStr "docs" ≠ pyStr "all"
    ∧ ∃ proj2,
        (⟨some ⟨none, [(pyStr "docs", [pyStr "foo==1.0"]),
            (pyStr "all", [pyStr "foo==1.0"])]⟩, false, none⟩ : Pyproject).project
          = some proj2
        ∧ List.lookup (pyStr "docs") proj2.optional_dependencies
            = some (modify_dependencies
                ((List.lookup (pyStr "docs")
                  (⟨none, []⟩ : ProjectTable).optional_dependencies).getD [])
                (packageVersionStr (pyStr "foo") (pyStr "1.0")) (pyStr "install"))
        ∧ List.lookup (pyStr "all") proj2.optional_dependencies
            = some (modify_dependencies
                ((List.lookup (pyStr "all")
                  (⟨none, []⟩ : ProjectTable).optional_dependencies).getD [])
                (packageVersionStr (pyStr "foo") (pyStr "1.0")) (pyStr "install"))
        ∧ (pyStr "install" = pyStr "install" →
            pyStrip (packageVersionStr (pyStr "foo") (pyStr "1.0"))
                ∈ (List.lookup (pyStr "docs") proj2.optional_dependencies).getD []
            ∧ pyStrip (packageVersionStr (pyStr "foo") (pyStr "1.0"))
                ∈ (List.lookup (pyStr "all") proj2.optional_dependencies).getD []) :=
  ⟨by decide, by decide,
   C9_optional_both_groups ⟨some ⟨none, []⟩, false, none⟩ (pyStr "foo") (pyStr "1.0")
     (pyStr "install") none (pyStr "docs") ⟨none, []⟩
     ⟨some ⟨none, [(pyStr "docs", [pyStr "foo==1.0"]),
         (pyStr "all", [pyStr "foo==1.0"])]⟩, false, none⟩
     (by decide) (by decide) rfl (by decide)⟩
